import Mathlib

/-!
# Verification of the reference-counted map (`RcMap`) described in this repository

The repository's blog post `src/content/blog/RcMapRust.md` presents, as Rust
code, a reference-counted key-value map `RcMap<K, V>` backed by
`Arc<DashMap<K, (isize, V)>>`, together with a handle type `ObjectRef<K, V>`
holding a `Weak` back-reference, a cached key and a cached value.  This file
gives a shallow embedding of that code and proves the specification's claims
about it.

The embedding:
* the backing `DashMap<K, (isize, V)>` is a function `K → Option (Int × V)`;
  `alter`, `remove_if` and `insert` are modelled pointwise, exactly with the
  semantics the code relies on (`alter` touches only an existing entry,
  `remove_if` removes only when the predicate holds);
* `RcMap.get`, `RcMap.insert` and the `Drop` implementation of `ObjectRef`
  (`ObjectRef.drop`) are straight transcriptions of the post's final Rust code;
* the `Weak` back-reference and the population of live handles are modelled by
  a system state (`SysState`) with a `storeAlive` flag and a list of live
  handles, driven by a step function over an operation alphabet
  (`insert`/`get`/`release` plus tearing the store down).
-/

set_option linter.unusedSectionVars false

namespace RcMapSpec

variable {K V : Type} [DecidableEq K] [DecidableEq V]

/-- `ObjectRef<K, V>`: the handle returned by the map.  The Rust struct also
holds `parent_ref : Weak<DashMap<K, (isize, V)>>`; in this single-store
embedding the weak back-reference is represented by the `storeAlive` flag of
`SysState` (upgrade succeeds exactly while the store is alive). -/
structure ObjectRef (K V : Type) where
  key : K
  value : V
deriving DecidableEq, Repr

/-- `InsertError<K, V>`: `insert` fails with `AlreadyExists(key, object_ref)`
when an entry for the key is already present. -/
inductive InsertError (K V : Type) where
  | AlreadyExists (key : K) (objectRef : ObjectRef K V)
deriving DecidableEq, Repr

/-- `DashMap::alter(&key, f)`: applies `f` to the entry at `key` if one is
present; does nothing when the key is absent. -/
def dashAlter (m : K → Option (Int × V)) (k : K) (f : Int × V → Int × V) :
    K → Option (Int × V) :=
  fun k' => if k' = k then (m k').map f else m k'

/-- `DashMap::remove_if(&key, p)`: removes the entry at `key` when present and
satisfying `p`; otherwise does nothing. -/
def dashRemoveIf (m : K → Option (Int × V)) (k : K) (p : Int × V → Bool) :
    K → Option (Int × V) :=
  fun k' =>
    if k' = k then
      match m k' with
      | none => none
      | some e => if p e then none else some e
    else m k'

/-- `DashMap::insert(key, e)`: unconditionally stores `e` at `key`. -/
def dashInsert (m : K → Option (Int × V)) (k : K) (e : Int × V) :
    K → Option (Int × V) :=
  fun k' => if k' = k then some e else m k'

/-- `RcMap<K, V>`: the store, owning the backing map
`inner : DashMap<K, (isize, V)>` (behind `Arc` in the Rust code). -/
structure RcMap (K V : Type) where
  inner : K → Option (Int × V)

/-- `RcMap::new()`. -/
def RcMap.new (K V : Type) : RcMap K V := ⟨fun _ => none⟩

/-- `RcMap::get`:

```rust
pub fn get(&self, key: K) -> Option<ObjectRef<K, V>> {
    self.inner.alter(&key, |_, (count, value)| (count + 1, value));
    let Some(value_ref) = self.inner.get(&key) else { return None; };
    let (_count, value) = value_ref.value();
    Some(ObjectRef { key, parent_ref: Arc::downgrade(&self.inner), value: value.clone() })
}
```

returns the optional handle together with the store after the call. -/
def RcMap.get (m : RcMap K V) (key : K) :
    Option (ObjectRef K V) × RcMap K V :=
  let inner1 := dashAlter m.inner key (fun cv => (cv.1 + 1, cv.2))
  match inner1 key with
  | none => (none, ⟨inner1⟩)
  | some cv => (some ⟨key, cv.2⟩, ⟨inner1⟩)

/-- `RcMap::insert`:

```rust
pub fn insert(&self, key: K, value: V) -> Result<ObjectRef<K, V>, InsertError<K, V>> {
    if let Some(object_ref) = self.get(key.clone()) {
        return Err(InsertError::AlreadyExists(key, object_ref));
    }
    let _prev = self.inner.insert(key.clone(), (1, value.clone()));
    Ok(ObjectRef { key, parent_ref: Arc::downgrade(&self.inner), value })
}
```

returns the result together with the store after the call. -/
def RcMap.insert (m : RcMap K V) (key : K) (value : V) :
    Except (InsertError K V) (ObjectRef K V) × RcMap K V :=
  match m.get key with
  | (some objectRef, m1) =>
      (Except.error (InsertError.AlreadyExists key objectRef), m1)
  | (none, m1) =>
      (Except.ok ⟨key, value⟩, ⟨dashInsert m1.inner key (1, value)⟩)

/-- The body of `Drop for ObjectRef` once `parent_ref.upgrade()` has
succeeded:

```rust
map.alter(&self.key, |_, (count, value)| (count - 1, value));
map.remove_if(&self.key, |_, (count, _)| *count <= 0);
```
-/
def ObjectRef.drop (r : ObjectRef K V) (m : RcMap K V) : RcMap K V :=
  let inner1 := dashAlter m.inner r.key (fun cv => (cv.1 - 1, cv.2))
  ⟨dashRemoveIf inner1 r.key (fun cv => decide (cv.1 ≤ 0))⟩

/-- The operation alphabet of the system: the public API calls plus dropping
every strong owner of the store (after which `Weak::upgrade` fails). -/
inductive Op (K V : Type) where
  | insert (key : K) (value : V)
  | get (key : K)
  | release (r : ObjectRef K V)
  | dropStore
deriving DecidableEq, Repr

/-- The global state: whether the store is still alive (some strong owner of
the `Arc` remains), the backing map, and the multiset (as a list) of live
handles handed out so far and not yet dropped. -/
structure SysState (K V : Type) where
  storeAlive : Bool
  inner : K → Option (Int × V)
  handles : List (ObjectRef K V)

/-- The initial state: an empty, live store with no outstanding handles. -/
def SysState.init (K V : Type) : SysState K V :=
  ⟨true, fun _ => none, []⟩

/-- One step of the system.  `insert` and `get` require a live store (they are
methods on the owned `RcMap`); both hand the returned handle — including the
auxiliary handle carried by `InsertError::AlreadyExists` — to the caller.
`release` runs `ObjectRef`'s `Drop`: the handle disappears, and the map is
updated only when the weak back-reference still upgrades. -/
def step (s : SysState K V) : Op K V → SysState K V
  | Op.insert key value =>
      if s.storeAlive then
        match RcMap.insert ⟨s.inner⟩ key value with
        | (Except.ok r, m1) =>
            { s with inner := m1.inner, handles := r :: s.handles }
        | (Except.error (InsertError.AlreadyExists _ r), m1) =>
            { s with inner := m1.inner, handles := r :: s.handles }
      else s
  | Op.get key =>
      if s.storeAlive then
        match RcMap.get ⟨s.inner⟩ key with
        | (some r, m1) =>
            { s with inner := m1.inner, handles := r :: s.handles }
        | (none, m1) => { s with inner := m1.inner }
      else s
  | Op.release r =>
      if r ∈ s.handles then
        { s with
          inner :=
            if s.storeAlive then (ObjectRef.drop r ⟨s.inner⟩).inner
            else s.inner,
          handles := s.handles.erase r }
      else s
  | Op.dropStore => { s with storeAlive := false }

/-- Run a sequence of operations from a state. -/
def run (s : SysState K V) (ops : List (Op K V)) : SysState K V :=
  ops.foldl step s

/-- The number of live handles referencing key `k`. -/
def countHandles (hs : List (ObjectRef K V)) (k : K) : Nat :=
  (hs.filter (fun r => decide (r.key = k))).length

/-- The stored reference count of key `k` (0 when the key is absent). -/
def storedCount (m : K → Option (Int × V)) (k : K) : Int :=
  match m k with
  | none => 0
  | some cv => cv.1

/-- The central invariant: while the store is alive, every key's live-handle
count agrees with its stored reference count (both being 0 for absent keys). -/
def Inv (s : SysState K V) : Prop :=
  s.storeAlive = true →
    ∀ k : K, (countHandles s.handles k : Int) = storedCount s.inner k

/-- `n` successive `get key` calls on the store (the returned handles are all
`⟨key, v⟩` where `v` is the stored value, which `get` never changes). -/
def getN (m : RcMap K V) (key : K) : Nat → RcMap K V
  | 0 => m
  | n + 1 => ((getN m key n).get key).2

/-- Dropping `j` handles for the same entry, one after the other. -/
def releaseN (r : ObjectRef K V) (m : RcMap K V) : Nat → RcMap K V
  | 0 => m
  | j + 1 => r.drop (releaseN r m j)

/-! ## Pointwise behaviour of the map primitives -/

theorem dashAlter_self (m : K → Option (Int × V)) (k : K) (f : Int × V → Int × V) :
    dashAlter m k f k = (m k).map f := by
  simp [dashAlter]

theorem dashAlter_other (m : K → Option (Int × V)) (k : K) (f : Int × V → Int × V)
    (k' : K) (h : k' ≠ k) : dashAlter m k f k' = m k' := by
  simp [dashAlter, h]

theorem dashAlter_absent (m : K → Option (Int × V)) (k : K) (f : Int × V → Int × V)
    (h : m k = none) : ∀ k', dashAlter m k f k' = m k' := by
  intro k'
  by_cases hk : k' = k
  · subst hk; simp [dashAlter, h]
  · exact dashAlter_other m k f k' hk

theorem dashInsert_self (m : K → Option (Int × V)) (k : K) (e : Int × V) :
    dashInsert m k e k = some e := by
  simp [dashInsert]

theorem dashInsert_other (m : K → Option (Int × V)) (k : K) (e : Int × V)
    (k' : K) (h : k' ≠ k) : dashInsert m k e k' = m k' := by
  simp [dashInsert, h]

/-! ## Characterisations of `get`, `insert` and `drop` -/

theorem get_eq_absent (m : RcMap K V) (key : K) (h : m.inner key = none) :
    m.get key = (none, ⟨dashAlter m.inner key (fun cv => (cv.1 + 1, cv.2))⟩) := by
  have h1 : dashAlter m.inner key (fun cv => (cv.1 + 1, cv.2)) key = none := by
    rw [dashAlter_self, h]; rfl
  simp only [RcMap.get, h1]

theorem get_eq_present (m : RcMap K V) (key : K) (c : Int) (v : V)
    (h : m.inner key = some (c, v)) :
    m.get key =
      (some ⟨key, v⟩, ⟨dashAlter m.inner key (fun cv => (cv.1 + 1, cv.2))⟩) := by
  have h1 : dashAlter m.inner key (fun cv => (cv.1 + 1, cv.2)) key = some (c + 1, v) := by
    rw [dashAlter_self, h]; rfl
  simp only [RcMap.get, h1]

theorem insert_eq_fresh (m : RcMap K V) (key : K) (value : V) (h : m.inner key = none) :
    m.insert key value =
      (Except.ok ⟨key, value⟩,
       ⟨dashInsert (dashAlter m.inner key (fun cv => (cv.1 + 1, cv.2))) key
          (1, value)⟩) := by
  unfold RcMap.insert
  rw [get_eq_absent m key h]

theorem insert_eq_existing (m : RcMap K V) (key : K) (c : Int) (v newValue : V)
    (h : m.inner key = some (c, v)) :
    m.insert key newValue =
      (Except.error (InsertError.AlreadyExists key ⟨key, v⟩),
       ⟨dashAlter m.inner key (fun cv => (cv.1 + 1, cv.2))⟩) := by
  unfold RcMap.insert
  rw [get_eq_present m key c v h]

theorem drop_inner_self (r : ObjectRef K V) (m : RcMap K V) (c : Int) (v : V)
    (h : m.inner r.key = some (c, v)) :
    (r.drop m).inner r.key = if c - 1 ≤ 0 then none else some (c - 1, v) := by
  have h1 : dashAlter m.inner r.key (fun cv => (cv.1 - 1, cv.2)) r.key
      = some (c - 1, v) := by
    rw [dashAlter_self, h]; rfl
  unfold ObjectRef.drop dashRemoveIf
  simp only [if_pos rfl, h1]
  by_cases hc : c - 1 ≤ 0 <;> simp [hc]

theorem drop_inner_other (r : ObjectRef K V) (m : RcMap K V) (k' : K)
    (h : k' ≠ r.key) : (r.drop m).inner k' = m.inner k' := by
  unfold ObjectRef.drop dashRemoveIf
  simp only [if_neg h]
  exact dashAlter_other m.inner r.key _ k' h

/-! ## Counting live handles -/

theorem countHandles_nil (k : K) : countHandles ([] : List (ObjectRef K V)) k = 0 :=
  rfl

theorem countHandles_cons (a : ObjectRef K V) (hs : List (ObjectRef K V)) (k : K) :
    countHandles (a :: hs) k
      = (if a.key = k then 1 else 0) + countHandles hs k := by
  by_cases hk : a.key = k
  · simp [countHandles, List.filter_cons, hk]
    omega
  · simp [countHandles, List.filter_cons, hk]

theorem countHandles_pos_of_mem (hs : List (ObjectRef K V)) (r : ObjectRef K V)
    (hr : r ∈ hs) : 0 < countHandles hs r.key := by
  induction hs with
  | nil => cases hr
  | cons a hs ih =>
    rw [countHandles_cons]
    rcases List.mem_cons.mp hr with h | h
    · subst h; simp
    · have := ih h; omega

theorem countHandles_erase (hs : List (ObjectRef K V)) (r : ObjectRef K V) (k : K)
    (hr : r ∈ hs) :
    countHandles (hs.erase r) k + (if r.key = k then 1 else 0)
      = countHandles hs k := by
  induction hs with
  | nil => cases hr
  | cons a hs ih =>
    rw [List.erase_cons]
    by_cases hae : a = r
    · subst hae
      rw [if_pos (beq_self_eq_true a), countHandles_cons]
      omega
    · rw [if_neg (by simp [hae])]
      have hr' : r ∈ hs := by
        rcases List.mem_cons.mp hr with h | h
        · exact absurd h.symm hae
        · exact h
      rw [countHandles_cons, countHandles_cons]
      have := ih hr'
      omega

/-! ## Stored counts and step characterisations -/

theorem storedCount_eq_of_none (m : K → Option (Int × V)) (k : K) (h : m k = none) :
    storedCount m k = 0 := by
  simp [storedCount, h]

theorem storedCount_eq_of_some (m : K → Option (Int × V)) (k : K) (c : Int) (v : V)
    (h : m k = some (c, v)) : storedCount m k = c := by
  simp [storedCount, h]

theorem storedCount_congr (m m' : K → Option (Int × V)) (k : K) (h : m k = m' k) :
    storedCount m k = storedCount m' k := by
  simp [storedCount, h]

theorem countHandles_cons_mk (k0 : K) (v0 : V) (hs : List (ObjectRef K V)) (k : K) :
    countHandles (⟨k0, v0⟩ :: hs) k
      = (if k0 = k then 1 else 0) + countHandles hs k := by
  rw [countHandles_cons]

theorem step_insert_fresh (s : SysState K V) (key : K) (value : V)
    (hal : s.storeAlive = true) (hmk : s.inner key = none) :
    step s (Op.insert key value)
      = { s with
          inner := dashInsert (dashAlter s.inner key (fun cv => (cv.1 + 1, cv.2)))
            key (1, value),
          handles := ⟨key, value⟩ :: s.handles } := by
  simp [step, hal, insert_eq_fresh (⟨s.inner⟩ : RcMap K V) key value hmk]

theorem step_insert_existing (s : SysState K V) (key : K) (c : Int) (v value : V)
    (hal : s.storeAlive = true) (hmk : s.inner key = some (c, v)) :
    step s (Op.insert key value)
      = { s with
          inner := dashAlter s.inner key (fun cv => (cv.1 + 1, cv.2)),
          handles := ⟨key, v⟩ :: s.handles } := by
  simp [step, hal, insert_eq_existing (⟨s.inner⟩ : RcMap K V) key c v value hmk]

theorem step_insert_dead (s : SysState K V) (key : K) (value : V)
    (hal : s.storeAlive = false) : step s (Op.insert key value) = s := by
  simp [step, hal]

theorem step_get_absent (s : SysState K V) (key : K)
    (hal : s.storeAlive = true) (hmk : s.inner key = none) :
    step s (Op.get key)
      = { s with inner := dashAlter s.inner key (fun cv => (cv.1 + 1, cv.2)) } := by
  simp [step, hal, get_eq_absent (⟨s.inner⟩ : RcMap K V) key hmk]

theorem step_get_present (s : SysState K V) (key : K) (c : Int) (v : V)
    (hal : s.storeAlive = true) (hmk : s.inner key = some (c, v)) :
    step s (Op.get key)
      = { s with
          inner := dashAlter s.inner key (fun cv => (cv.1 + 1, cv.2)),
          handles := ⟨key, v⟩ :: s.handles } := by
  simp [step, hal, get_eq_present (⟨s.inner⟩ : RcMap K V) key c v hmk]

theorem step_get_dead (s : SysState K V) (key : K)
    (hal : s.storeAlive = false) : step s (Op.get key) = s := by
  simp [step, hal]

theorem step_release_alive (s : SysState K V) (r : ObjectRef K V)
    (hal : s.storeAlive = true) (hmem : r ∈ s.handles) :
    step s (Op.release r)
      = { s with
          inner := (ObjectRef.drop r ⟨s.inner⟩).inner,
          handles := s.handles.erase r } := by
  simp [step, hal, hmem]

theorem step_release_dead (s : SysState K V) (r : ObjectRef K V)
    (hal : s.storeAlive = false) (hmem : r ∈ s.handles) :
    step s (Op.release r) = { s with handles := s.handles.erase r } := by
  simp [step, hal, hmem]

theorem step_release_not_mem (s : SysState K V) (r : ObjectRef K V)
    (hmem : r ∉ s.handles) : step s (Op.release r) = s := by
  simp [step, hmem]

theorem step_dropStore (s : SysState K V) :
    step s (Op.dropStore : Op K V) = { s with storeAlive := false } :=
  rfl

/-! ## Preservation of the central invariant -/

theorem Inv_init : Inv (SysState.init K V) := by
  intro _ k
  simp [SysState.init, countHandles_nil, storedCount]

theorem Inv_step (s : SysState K V) (op : Op K V) (h : Inv s) : Inv (step s op) := by
  cases op with
  | dropStore =>
      rw [step_dropStore]
      intro ha
      simp at ha
  | insert key value =>
      cases hal : s.storeAlive with
      | false => rw [step_insert_dead s key value hal]; exact h
      | true =>
          cases hmk : s.inner key with
          | none =>
              rw [step_insert_fresh s key value hal hmk]
              intro _ k
              show (countHandles (⟨key, value⟩ :: s.handles) k : Int)
                = storedCount
                    (dashInsert (dashAlter s.inner key (fun cv => (cv.1 + 1, cv.2)))
                      key (1, value)) k
              rw [countHandles_cons_mk]
              have hold := h hal k
              by_cases hk : k = key
              · subst hk
                rw [storedCount_eq_of_some _ _ 1 value (dashInsert_self _ _ _)]
                rw [storedCount_eq_of_none _ _ hmk] at hold
                simp only [eq_self_iff_true, if_true]
                omega
              · rw [if_neg (fun h' => hk h'.symm)]
                rw [storedCount_congr _ s.inner k (by
                    rw [dashInsert_other _ _ _ k hk,
                      dashAlter_absent s.inner key _ hmk k])]
                simpa using hold
          | some cv =>
              rw [step_insert_existing s key cv.1 cv.2 value hal (by simpa using hmk)]
              intro _ k
              show (countHandles (⟨key, cv.2⟩ :: s.handles) k : Int)
                = storedCount (dashAlter s.inner key (fun cv => (cv.1 + 1, cv.2))) k
              rw [countHandles_cons_mk]
              have hold := h hal k
              by_cases hk : k = key
              · subst hk
                rw [storedCount_eq_of_some _ _ (cv.1 + 1) cv.2
                    (by rw [dashAlter_self, hmk]; rfl)]
                rw [storedCount_eq_of_some _ _ cv.1 cv.2 (by simpa using hmk)] at hold
                simp only [eq_self_iff_true, if_true]
                omega
              · rw [if_neg (fun h' => hk h'.symm)]
                rw [storedCount_congr _ s.inner k (dashAlter_other s.inner key _ k hk)]
                simpa using hold
  | get key =>
      cases hal : s.storeAlive with
      | false => rw [step_get_dead s key hal]; exact h
      | true =>
          cases hmk : s.inner key with
          | none =>
              rw [step_get_absent s key hal hmk]
              intro _ k
              show (countHandles s.handles k : Int)
                = storedCount (dashAlter s.inner key (fun cv => (cv.1 + 1, cv.2))) k
              rw [storedCount_congr _ s.inner k (dashAlter_absent s.inner key _ hmk k)]
              exact h hal k
          | some cv =>
              rw [step_get_present s key cv.1 cv.2 hal (by simpa using hmk)]
              intro _ k
              show (countHandles (⟨key, cv.2⟩ :: s.handles) k : Int)
                = storedCount (dashAlter s.inner key (fun cv => (cv.1 + 1, cv.2))) k
              rw [countHandles_cons_mk]
              have hold := h hal k
              by_cases hk : k = key
              · subst hk
                rw [storedCount_eq_of_some _ _ (cv.1 + 1) cv.2
                    (by rw [dashAlter_self, hmk]; rfl)]
                rw [storedCount_eq_of_some _ _ cv.1 cv.2 (by simpa using hmk)] at hold
                simp only [eq_self_iff_true, if_true]
                omega
              · rw [if_neg (fun h' => hk h'.symm)]
                rw [storedCount_congr _ s.inner k (dashAlter_other s.inner key _ k hk)]
                simpa using hold
  | release r =>
      by_cases hmem : r ∈ s.handles
      · cases hal : s.storeAlive with
        | false =>
            rw [step_release_dead s r hal hmem]
            intro ha
            rw [show ({ s with handles := s.handles.erase r } : SysState K V).storeAlive
                  = s.storeAlive from rfl, hal] at ha
            cases ha
        | true =>
            rw [step_release_alive s r hal hmem]
            intro _ k
            show (countHandles (s.handles.erase r) k : Int)
              = storedCount ((ObjectRef.drop r ⟨s.inner⟩).inner) k
            have hold := h hal r.key
            have hpos := countHandles_pos_of_mem s.handles r hmem
            -- the entry for `r.key` is present with count `c ≥ 1`
            obtain ⟨c, v, hck, hc1⟩ :
                ∃ c v, s.inner r.key = some (c, v) ∧ 1 ≤ c := by
              cases hrk : s.inner r.key with
              | none =>
                  rw [storedCount_eq_of_none _ _ hrk] at hold
                  omega
              | some cv =>
                  refine ⟨cv.1, cv.2, by simp [hrk], ?_⟩
                  rw [storedCount_eq_of_some _ _ cv.1 cv.2 (by simp [hrk])] at hold
                  omega
            have herase := countHandles_erase s.handles r k hmem
            rw [storedCount_eq_of_some _ _ c v hck] at hold
            by_cases hk : k = r.key
            · subst hk
              rw [if_pos rfl] at herase
              have hdrop := drop_inner_self r (⟨s.inner⟩ : RcMap K V) c v hck
              by_cases hc0 : c - 1 ≤ 0
              · rw [if_pos hc0] at hdrop
                rw [storedCount_eq_of_none _ _ hdrop]
                omega
              · rw [if_neg hc0] at hdrop
                rw [storedCount_eq_of_some _ _ (c - 1) v hdrop]
                omega
            · rw [if_neg (fun h' => hk h'.symm)] at herase
              rw [storedCount_congr _ s.inner k (drop_inner_other r ⟨s.inner⟩ k hk)]
              have hold' := h hal k
              omega
      · rw [step_release_not_mem s r hmem]
        exact h

theorem Inv_run (s : SysState K V) (ops : List (Op K V)) (h : Inv s) :
    Inv (run s ops) := by
  induction ops generalizing s with
  | nil => exact h
  | cons op ops ih =>
      rw [run, List.foldl_cons]
      exact ih (step s op) (Inv_step s op h)

/-! ## Lifecycle lemmas: repeated `get` and repeated release -/

theorem getN_inner (m : RcMap K V) (key : K) (c : Int) (v : V)
    (h : m.inner key = some (c, v)) (n : Nat) :
    (getN m key n).inner key = some (c + n, v) := by
  induction n with
  | zero => simpa using h
  | succ n ih =>
      show (((getN m key n).get key).2).inner key = some (c + (n + 1 : Nat), v)
      rw [get_eq_present (getN m key n) key (c + n) v ih]
      show dashAlter (getN m key n).inner key (fun cv => (cv.1 + 1, cv.2)) key
        = some (c + (n + 1 : Nat), v)
      rw [dashAlter_self, ih]
      show some (c + (n : Int) + 1, v) = some (c + ((n + 1 : Nat) : Int), v)
      push_cast
      rw [add_assoc]

theorem releaseN_inner (r : ObjectRef K V) (m : RcMap K V) (c : Int) (v : V)
    (h : m.inner r.key = some (c, v)) (j : Nat) (hj : (j : Int) + 1 ≤ c) :
    (releaseN r m j).inner r.key = some (c - j, v) := by
  induction j with
  | zero => simpa using h
  | succ j ih =>
      have hj' : (j : Int) + 1 ≤ c := by push_cast at hj ⊢; omega
      have hprev := ih hj'
      show (r.drop (releaseN r m j)).inner r.key = some (c - (j + 1 : Nat), v)
      rw [drop_inner_self r (releaseN r m j) (c - j) v hprev]
      rw [if_neg (by push_cast at hj ⊢; omega)]
      have : c - (j : Int) - 1 = c - ((j + 1 : Nat) : Int) := by push_cast; ring
      rw [this]

theorem releaseN_removes (r : ObjectRef K V) (m : RcMap K V) (v : V) (n : Nat)
    (h : m.inner r.key = some ((n : Int) + 1, v)) :
    (releaseN r m (n + 1)).inner r.key = none := by
  have hlast : (releaseN r m n).inner r.key = some (1, v) := by
    have := releaseN_inner r m ((n : Int) + 1) v h n (by omega)
    rwa [show (n : Int) + 1 - n = 1 from by ring] at this
  show (r.drop (releaseN r m n)).inner r.key = none
  rw [drop_inner_self r (releaseN r m n) 1 v hlast]
  norm_num

/-- No operation other than releasing the handle `r` itself ever removes `r`
(with its cached key and value intact) from the pool of live handles. -/
theorem mem_handles_step (s : SysState K V) (op : Op K V) (r : ObjectRef K V)
    (hmem : r ∈ s.handles) (hop : op ≠ Op.release r) :
    r ∈ (step s op).handles := by
  cases op with
  | dropStore => rw [step_dropStore]; exact hmem
  | insert key value =>
      cases hal : s.storeAlive with
      | false => rw [step_insert_dead s key value hal]; exact hmem
      | true =>
          cases hmk : s.inner key with
          | none =>
              rw [step_insert_fresh s key value hal hmk]
              exact List.mem_cons_of_mem _ hmem
          | some cv =>
              rw [step_insert_existing s key cv.1 cv.2 value hal (by simpa using hmk)]
              exact List.mem_cons_of_mem _ hmem
  | get key =>
      cases hal : s.storeAlive with
      | false => rw [step_get_dead s key hal]; exact hmem
      | true =>
          cases hmk : s.inner key with
          | none => rw [step_get_absent s key hal hmk]; exact hmem
          | some cv =>
              rw [step_get_present s key cv.1 cv.2 hal (by simpa using hmk)]
              exact List.mem_cons_of_mem _ hmem
  | release r2 =>
      have hne : r ≠ r2 := fun he => hop (by rw [he])
      by_cases hmem2 : r2 ∈ s.handles
      · cases hal : s.storeAlive with
        | false =>
            rw [step_release_dead s r2 hal hmem2]
            exact (List.mem_erase_of_ne hne).mpr hmem
        | true =>
            rw [step_release_alive s r2 hal hmem2]
            exact (List.mem_erase_of_ne hne).mpr hmem
      · rw [step_release_not_mem s r2 hmem2]; exact hmem

/-! ## The specification's claims -/

/-- Claim C1: starting from an empty store, after any sequence of
`insert`/`get`/`release` operations (the store still being alive), every key
present in the store has exactly as many live handles referencing it as its
stored reference count. -/
theorem rcMap_refcount_invariant (ops : List (Op K V)) (k : K) (c : Int) (v : V)
    (halive : (run (SysState.init K V) ops).storeAlive = true)
    (hk : (run (SysState.init K V) ops).inner k = some (c, v)) :
    (countHandles (run (SysState.init K V) ops).handles k : Int) = c := by
  have hinv := Inv_run (SysState.init K V) ops Inv_init halive k
  rwa [storedCount_eq_of_some _ _ c v hk] at hinv

theorem rcMap_refcount_invariant_witness :
    (countHandles (run (SysState.init Nat Nat) [Op.insert 0 5, Op.get 0]).handles 0
      : Int) = 2 :=
  rcMap_refcount_invariant [Op.insert 0 5, Op.get 0] 0 2 5 (by decide) (by decide)

/-- Claim C2: inserting a key not present in the store succeeds, creates an
entry `(1, value)` for it, leaves every other key untouched, and returns a
handle wrapping the key and the value (its weak back-reference to the store is
modelled by the `storeAlive` flag driving `ObjectRef.drop`). -/
theorem rcMap_insert_fresh_contract (m : RcMap K V) (key : K) (value : V)
    (h : m.inner key = none) :
    (m.insert key value).1 = Except.ok ⟨key, value⟩ ∧
      (m.insert key value).2.inner key = some (1, value) ∧
      ∀ k', k' ≠ key → (m.insert key value).2.inner k' = m.inner k' := by
  rw [insert_eq_fresh m key value h]
  refine ⟨rfl, dashInsert_self _ _ _, fun k' hk' => ?_⟩
  show dashInsert (dashAlter m.inner key (fun cv => (cv.1 + 1, cv.2))) key
      (1, value) k' = m.inner k'
  rw [dashInsert_other _ _ _ k' hk', dashAlter_absent m.inner key _ h k']

theorem rcMap_insert_fresh_contract_witness :
    ((RcMap.new Nat Nat).insert 0 5).1 = Except.ok ⟨0, 5⟩ ∧
      ((RcMap.new Nat Nat).insert 0 5).2.inner 0 = some (1, 5) ∧
      ((RcMap.new Nat Nat).insert 0 5).2.inner 3 = (RcMap.new Nat Nat).inner 3 := by
  have h := rcMap_insert_fresh_contract (RcMap.new Nat Nat) 0 5 (by decide)
  exact ⟨h.1, h.2.1, h.2.2 3 (by decide)⟩

/-- Claim C3: inserting on a key whose entry is live fails with
`AlreadyExists`; the error's auxiliary handle caches the pre-existing stored
value (not the attempted new one), the stored value is unchanged, and the
entry's reference count is incremented by exactly 1 by the internal lookup. -/
theorem rcMap_insert_existing_contract (m : RcMap K V) (key : K) (c : Int)
    (v newValue : V) (h : m.inner key = some (c, v)) :
    (m.insert key newValue).1
        = Except.error (InsertError.AlreadyExists key ⟨key, v⟩) ∧
      (m.insert key newValue).2.inner key = some (c + 1, v) ∧
      ∀ k', k' ≠ key → (m.insert key newValue).2.inner k' = m.inner k' := by
  rw [insert_eq_existing m key c v newValue h]
  refine ⟨rfl, ?_, fun k' hk' => ?_⟩
  · show dashAlter m.inner key (fun cv => (cv.1 + 1, cv.2)) key = some (c + 1, v)
    rw [dashAlter_self, h]
    rfl
  · show dashAlter m.inner key (fun cv => (cv.1 + 1, cv.2)) k' = m.inner k'
    exact dashAlter_other m.inner key _ k' hk'

theorem rcMap_insert_existing_contract_witness :
    (((RcMap.new Nat Nat).insert 0 5).2.insert 0 7).1
        = Except.error (InsertError.AlreadyExists 0 ⟨0, 5⟩) ∧
      (((RcMap.new Nat Nat).insert 0 5).2.insert 0 7).2.inner 0 = some (2, 5) := by
  have h := rcMap_insert_existing_contract ((RcMap.new Nat Nat).insert 0 5).2
    0 1 5 7 (by decide)
  exact ⟨h.1, h.2.1⟩

/-- Claim C4: `get` on an absent key returns nothing (no error); `get` on a
key holding `(c, value)` increments the stored count to `c + 1`, keeps the
stored value, and returns a handle caching a clone of the stored value. -/
theorem rcMap_get_contract (m : RcMap K V) (key : K) (c : Int) (v : V) :
    (m.inner key = none → (m.get key).1 = none) ∧
      (m.inner key = some (c, v) →
        (m.get key).1 = some ⟨key, v⟩ ∧
          (m.get key).2.inner key = some (c + 1, v)) := by
  constructor
  · intro h
    rw [get_eq_absent m key h]
  · intro h
    rw [get_eq_present m key c v h]
    refine ⟨rfl, ?_⟩
    show dashAlter m.inner key (fun cv => (cv.1 + 1, cv.2)) key = some (c + 1, v)
    rw [dashAlter_self, h]
    rfl

theorem rcMap_get_contract_witness :
    ((RcMap.new Nat Nat).get 1).1 = none ∧
      ((((RcMap.new Nat Nat).insert 0 5).2.get 0).1 = some ⟨0, 5⟩ ∧
        (((RcMap.new Nat Nat).insert 0 5).2.get 0).2.inner 0 = some (1 + 1, 5)) :=
  ⟨(rcMap_get_contract (RcMap.new Nat Nat) 1 0 0).1 (by decide),
    (rcMap_get_contract ((RcMap.new Nat Nat).insert 0 5).2 0 1 5).2 (by decide)⟩

/-- Claim C5: releasing a handle while the store is alive decrements the
entry's count from `c` to `c - 1`; the entry is removed exactly when
`c - 1 ≤ 0`, and otherwise stays with its value unchanged; other keys are
untouched. -/
theorem rcMap_release_contract (m : RcMap K V) (r : ObjectRef K V) (c : Int)
    (v : V) (h : m.inner r.key = some (c, v)) :
    ((r.drop m).inner r.key = if c - 1 ≤ 0 then none else some (c - 1, v)) ∧
      ∀ k', k' ≠ r.key → (r.drop m).inner k' = m.inner k' :=
  ⟨drop_inner_self r m c v h, fun k' hk' => drop_inner_other r m k' hk'⟩

theorem rcMap_release_contract_witness :
    ((⟨0, 5⟩ : ObjectRef Nat Nat).drop ((RcMap.new Nat Nat).insert 0 5).2).inner 0
        = none ∧
      ((⟨0, 5⟩ : ObjectRef Nat Nat).drop
          (((RcMap.new Nat Nat).insert 0 5).2.get 0).2).inner 0 = some (1, 5) := by
  constructor
  · have h := (rcMap_release_contract ((RcMap.new Nat Nat).insert 0 5).2
      ⟨0, 5⟩ 1 5 (by decide)).1
    simpa using h
  · have h := (rcMap_release_contract (((RcMap.new Nat Nat).insert 0 5).2.get 0).2
      ⟨0, 5⟩ 2 5 (by decide)).1
    simpa using h

/-- Claim C6: releasing a handle after the store has been fully discarded
(`storeAlive = false`, so the weak back-reference cannot be upgraded) is a
no-op on the store: no error arises (the step is a total function), the map is
unchanged, and the store stays torn down. -/
theorem rcMap_release_after_teardown_noop (s : SysState K V) (r : ObjectRef K V)
    (h : s.storeAlive = false) :
    (step s (Op.release r)).inner = s.inner ∧
      (step s (Op.release r)).storeAlive = false := by
  by_cases hmem : r ∈ s.handles
  · rw [step_release_dead s r h hmem]
    exact ⟨rfl, h⟩
  · rw [step_release_not_mem s r hmem]
    exact ⟨rfl, h⟩

theorem rcMap_release_after_teardown_noop_witness :
    (step (run (SysState.init Nat Nat) [Op.insert 0 5, Op.dropStore])
        (Op.release ⟨0, 5⟩)).inner
      = (run (SysState.init Nat Nat) [Op.insert 0 5, Op.dropStore]).inner ∧
    (step (run (SysState.init Nat Nat) [Op.insert 0 5, Op.dropStore])
        (Op.release ⟨0, 5⟩)).storeAlive = false :=
  rcMap_release_after_teardown_noop
    (run (SysState.init Nat Nat) [Op.insert 0 5, Op.dropStore]) ⟨0, 5⟩ (by decide)

/-- Claim C7: from a store where `key` is absent, insert it, take `n` further
`get` references, then drop handles one by one (all `n + 1` handles are the
identical value `⟨key, v⟩`, so any drop order is this one): after only
`j ≤ n` drops the entry is still present, with count `1 + n - j`; after all
`n + 1` drops the key is gone and a further `get` returns nothing. -/
theorem rcMap_lifecycle_insert_get_release (m : RcMap K V) (key : K) (v : V)
    (n : Nat) (h : m.inner key = none) :
    ((releaseN ⟨key, v⟩ (getN (m.insert key v).2 key n) (n + 1)).inner key
        = none ∧
      ((releaseN ⟨key, v⟩ (getN (m.insert key v).2 key n) (n + 1)).get key).1
        = none) ∧
    ∀ j : Nat, j ≤ n →
      (releaseN ⟨key, v⟩ (getN (m.insert key v).2 key n) j).inner key
        = some (1 + (n : Int) - j, v) := by
  have h1 : (m.insert key v).2.inner key = some (1, v) := by
    rw [insert_eq_fresh m key v h]
    exact dashInsert_self _ _ _
  have h2 : (getN (m.insert key v).2 key n).inner key = some (1 + (n : Int), v) :=
    getN_inner (m.insert key v).2 key 1 v h1 n
  have h2' : (getN (m.insert key v).2 key n).inner
      ((⟨key, v⟩ : ObjectRef K V).key) = some ((n : Int) + 1, v) := by
    rwa [show (n : Int) + 1 = 1 + n from by ring]
  have hgone :
      (releaseN ⟨key, v⟩ (getN (m.insert key v).2 key n) (n + 1)).inner key
        = none :=
    releaseN_removes ⟨key, v⟩ (getN (m.insert key v).2 key n) v n h2'
  refine ⟨⟨hgone, ?_⟩, fun j hj => ?_⟩
  · rw [get_eq_absent _ key hgone]
  · have := releaseN_inner ⟨key, v⟩ (getN (m.insert key v).2 key n)
      (1 + (n : Int)) v h2 j (by omega)
    rwa [show 1 + (n : Int) - j = 1 + (n : Int) - (j : Int) from rfl] at this

theorem rcMap_lifecycle_insert_get_release_witness :
    (releaseN ⟨0, 5⟩ (getN ((RcMap.new Nat Nat).insert 0 5).2 0 1) 2).inner 0
        = none ∧
      ((releaseN ⟨0, 5⟩ (getN ((RcMap.new Nat Nat).insert 0 5).2 0 1) 2).get 0).1
        = none ∧
      (releaseN ⟨0, 5⟩ (getN ((RcMap.new Nat Nat).insert 0 5).2 0 1) 1).inner 0
        = some (1, 5) := by
  have h := rcMap_lifecycle_insert_get_release (RcMap.new Nat Nat) 0 5 1 (by decide)
  refine ⟨h.1.1, h.1.2, ?_⟩
  have h2 := h.2 1 (by decide)
  simpa using h2

/-- Claim C8: a handle's exposed value is the cached copy fixed at acquisition
time: no later `insert`, `get` or `release` on the store (this key or any
other) alters it.  In the embedding a live handle is the immutable pair
`(key, value)` held in the pool, and every operation other than releasing that
very handle keeps the identical pair in the pool. -/
theorem rcMap_handle_value_immutable (s : SysState K V) (ops : List (Op K V))
    (r : ObjectRef K V) (hmem : r ∈ s.handles) (hops : Op.release r ∉ ops) :
    r ∈ (run s ops).handles := by
  induction ops generalizing s with
  | nil => exact hmem
  | cons op ops ih =>
      rw [run, List.foldl_cons]
      have hop : op ≠ Op.release r := fun he => hops (he ▸ List.mem_cons_self op ops)
      exact ih (step s op) (mem_handles_step s op r hmem hop)
        (fun hmem2 => hops (List.mem_cons_of_mem _ hmem2))

theorem rcMap_handle_value_immutable_witness :
    (⟨0, 5⟩ : ObjectRef Nat Nat) ∈
      (run (run (SysState.init Nat Nat) [Op.insert 0 5])
        [Op.get 0, Op.insert 1 7, Op.release ⟨1, 7⟩]).handles :=
  rcMap_handle_value_immutable (run (SysState.init Nat Nat) [Op.insert 0 5])
    [Op.get 0, Op.insert 1 7, Op.release ⟨1, 7⟩] ⟨0, 5⟩ (by decide) (by decide)

/-- Claim C10: `get` on an absent key leaves the store completely unchanged —
the internal `alter` is a no-op on an absent key, so no entry is created and
no other entry or count is modified. -/
theorem rcMap_get_absent_frame (m : RcMap K V) (key : K) (h : m.inner key = none) :
    (m.get key).1 = none ∧ ∀ k', (m.get key).2.inner k' = m.inner k' := by
  rw [get_eq_absent m key h]
  exact ⟨rfl, dashAlter_absent m.inner key _ h⟩

theorem rcMap_get_absent_frame_witness :
    (((RcMap.new Nat Nat).insert 0 5).2.get 3).1 = none ∧
      (((RcMap.new Nat Nat).insert 0 5).2.get 3).2.inner 0
        = ((RcMap.new Nat Nat).insert 0 5).2.inner 0 := by
  have h := rcMap_get_absent_frame ((RcMap.new Nat Nat).insert 0 5).2 3 (by decide)
  exact ⟨h.1, h.2 0⟩

end RcMapSpec
